import Mathlib

/-!
Shallow embedding of the financial-EDA diagnostics engine
(`scripts/eda/eda_finance.py`) of the Financial-SDG-GARCH repository.

Floating-point values are modelled by `FVal`: a rational number, positive or
negative infinity, or NaN, with IEEE-style propagation in the arithmetic
operations that the source uses.  The natural logarithm is transcendental, so
it is threaded through the development as an abstract parameter
`lg : ℚ → ℚ` applied to strictly positive finite arguments; `flog` wraps it
with the IEEE behaviour of `np.log` (NaN on negative input, -inf at zero).
External statistical routines (`adfuller`, `kpss`, `acorr_ljungbox`,
`het_arch`, `pd.to_datetime`, `DataFrame.resample`) are parameters of the
functions that call them, with `Except` capturing the exceptions the source
catches.
-/

attribute [local semireducible] Rat.add Rat.mul Rat.inv Rat.sub Rat.ofScientific

/-- Model of a Python/NumPy double: finite rational, ±infinity, or NaN. -/
inductive FVal where
  | nan : FVal
  | pinf : FVal
  | ninf : FVal
  | fin : ℚ → FVal
deriving DecidableEq

/-- Truth of `pd.isna` on a scalar: only NaN is missing. -/
def isNaNB : FVal → Bool
  | .nan => true
  | _ => false

/-- A value is finite when it is neither NaN nor infinite. -/
def isFiniteB : FVal → Bool
  | .fin _ => true
  | _ => false

/-- The rational carried by a finite value (0 otherwise). -/
def finPart : FVal → ℚ
  | .fin a => a
  | _ => 0

/-- IEEE-style addition on model floats. -/
def fadd : FVal → FVal → FVal
  | .nan, _ => .nan
  | _, .nan => .nan
  | .pinf, .ninf => .nan
  | .ninf, .pinf => .nan
  | .pinf, _ => .pinf
  | _, .pinf => .pinf
  | .ninf, _ => .ninf
  | _, .ninf => .ninf
  | .fin a, .fin b => .fin (a + b)

/-- IEEE-style negation. -/
def fneg : FVal → FVal
  | .nan => .nan
  | .pinf => .ninf
  | .ninf => .pinf
  | .fin a => .fin (-a)

/-- IEEE-style subtraction. -/
def fsub (a b : FVal) : FVal := fadd a (fneg b)

/-- Multiplication by a finite rational scalar. -/
def smulF (c : ℚ) : FVal → FVal
  | .nan => .nan
  | .fin a => .fin (c * a)
  | .pinf => if 0 < c then .pinf else if c < 0 then .ninf else .nan
  | .ninf => if 0 < c then .ninf else if c < 0 then .pinf else .nan

/-- IEEE-style division, as NumPy performs it (x/0 gives a signed infinity,
0/0 gives NaN, x/inf gives 0). -/
def fdivF : FVal → FVal → FVal
  | .nan, _ => .nan
  | _, .nan => .nan
  | .pinf, .pinf => .nan
  | .pinf, .ninf => .nan
  | .ninf, .pinf => .nan
  | .ninf, .ninf => .nan
  | .pinf, .fin b => if 0 ≤ b then .pinf else .ninf
  | .ninf, .fin b => if 0 ≤ b then .ninf else .pinf
  | .fin _, .pinf => .fin 0
  | .fin _, .ninf => .fin 0
  | .fin a, .fin b =>
      if b = 0 then (if 0 < a then .pinf else if a < 0 then .ninf else .nan)
      else .fin (a / b)

/-- Behaviour of `np.log`: the abstract logarithm `lg` on positive finite
input, -inf at zero, NaN on negative input or NaN, +inf at +inf. -/
def flog (lg : ℚ → ℚ) : FVal → FVal
  | .nan => .nan
  | .pinf => .pinf
  | .ninf => .nan
  | .fin a => if 0 < a then .fin (lg a) else if a = 0 then .ninf else .nan

/-- Strict comparison `x > u` as pandas evaluates it elementwise: any
comparison with NaN is false. -/
def fgt : FVal → FVal → Bool
  | .nan, _ => false
  | _, .nan => false
  | .pinf, .pinf => false
  | .pinf, _ => true
  | _, .pinf => false
  | .ninf, _ => false
  | .fin _, .ninf => true
  | .fin a, .fin b => decide (b < a)

/-- Total Boolean order used to sort non-NaN values (ninf below finite below
pinf); NaN entries are removed before sorting, matching pandas. -/
def vle : FVal → FVal → Bool
  | .nan, _ => true
  | _, .nan => false
  | .ninf, _ => true
  | _, .ninf => false
  | .fin a, .fin b => decide (a ≤ b)
  | .fin _, .pinf => true
  | .pinf, .pinf => true
  | .pinf, .fin _ => false

/-- Boolean order on rationals, for the rational-level quantile. -/
def qle (a b : ℚ) : Bool := decide (a ≤ b)

/-- Model of `Series.dropna()`: remove the NaN entries. -/
def dropnaS (xs : List FVal) : List FVal := xs.filter (fun v => ! isNaNB v)

/-- Insertion step of insertion sort with a Boolean order. -/
def insertLe {α : Type} (le : α → α → Bool) (a : α) : List α → List α
  | [] => [a]
  | b :: t => if le a b then a :: b :: t else b :: insertLe le a t

/-- Insertion sort with a Boolean order (models the ascending sort used by
the quantile computation). -/
def sortLe {α : Type} (le : α → α → Bool) : List α → List α
  | [] => []
  | a :: t => insertLe le a (sortLe le t)

/-- Sum of a list of model floats. -/
def fsum (l : List FVal) : FVal := l.foldr fadd (.fin 0)

/-- Model of `Series.mean()` with its default `skipna=True`: NaN entries are
dropped, the mean of an empty set is NaN. -/
def fmean (l : List FVal) : FVal :=
  let v := dropnaS l
  if v.length = 0 then .nan else smulF (1 / (v.length : ℚ)) (fsum v)

/-- Model of `Series.quantile(q)` with the default linear interpolation for a
valid `q`: drop NaN, sort ascending, and interpolate between the order
statistics bracketing position `(n-1)*q`.  An empty value set gives NaN. -/
def quantileCore (xs : List FVal) (q : ℚ) : FVal :=
  let vals := sortLe vle (dropnaS xs)
  if vals.isEmpty then FVal.nan
  else
    let n := vals.length
    let h := ((n - 1 : ℕ) : ℚ) * q
    let i := (Rat.floor h).toNat
    let g := h - ((Rat.floor h : ℤ) : ℚ)
    let lo := vals.getD i FVal.nan
    let hi := vals.getD (min (i + 1) (n - 1)) FVal.nan
    fadd lo (smulF g (fsub hi lo))

/-- Model of `Series.quantile(q)` including the `ValueError` pandas raises
when `q` lies outside `[0, 1]`. -/
def quantileF (xs : List FVal) (q : ℚ) : Except Unit FVal :=
  if 0 ≤ q ∧ q ≤ 1 then .ok (quantileCore xs q) else .error ()

/-- Rational-level quantile of a list of rationals, the clean counterpart of
`quantileCore` on NaN-free finite data. -/
def quantileQ (l : List ℚ) (q : ℚ) : ℚ :=
  let vals := sortLe qle l
  if vals.isEmpty then 0
  else
    let n := vals.length
    let h := ((n - 1 : ℕ) : ℚ) * q
    let i := (Rat.floor h).toNat
    let g := h - ((Rat.floor h : ℤ) : ℚ)
    let lo := vals.getD i 0
    let hi := vals.getD (min (i + 1) (n - 1)) 0
    lo + g * (hi - lo)

/-- Body of `hill_tail_index` before its catch-all exception handler:
threshold at the `q`-quantile, keep strict exceedances, return NaN below 10
of them, otherwise the reciprocal of the mean log-exceedance ratio.
`Except.error` marks the exceptions the handler would catch. -/
def hillBody (lg : ℚ → ℚ) (xs : List FVal) (q : ℚ) : Except Unit FVal := do
  let u ← quantileF xs q
  let tail := xs.filter (fun x => fgt x u)
  if tail.length < 10 then
    pure FVal.nan
  else
    pure (fdivF (.fin 1) (fmean (tail.map (fun x => flog lg (fdivF x u)))))

/-- The function `hill_tail_index` of `eda_finance.py`: its body wrapped in
the `try/except` that converts any exception into NaN. -/
def hill_tail_index (lg : ℚ → ℚ) (xs : List FVal) (q : ℚ) : FVal :=
  match hillBody lg xs q with
  | .ok v => v
  | .error _ => FVal.nan

/-- A return-panel row from two consecutive price rows, following
`compute_returns`: log returns are `ln(price[t] / price[t-1])` elementwise,
simple returns are `(price[t] - price[t-1]) / price[t-1]`. -/
def retRow (lg : ℚ → ℚ) (useLog : Bool) (prev cur : List FVal) : List FVal :=
  if useLog then List.zipWith (fun a b => flog lg (fdivF b a)) prev cur
  else List.zipWith (fun a b => fdivF (fsub b a) a) prev cur

/-- Lower-casing of a string as `str.lower()`, at the character level. -/
def lowerData (s : String) : List Char := s.data.map Char.toLower

/-- The `return_type.lower() == "log"` dispatch of `compute_returns`. -/
def isLogType (rt : String) : Bool := lowerData rt == "log".data

/-- The function `compute_returns` of `eda_finance.py` on a panel given as a
list of rows: the shifted division makes the first row all-NaN, and the final
`DataFrame.dropna()` removes every row containing a NaN. -/
def compute_returns (lg : ℚ → ℚ) (rt : String) (rows : List (List FVal)) :
    List (List FVal) :=
  match rows with
  | [] => []
  | r0 :: rest =>
      ((r0.map (fun _ => FVal.nan)) ::
          List.zipWith (retRow lg (isLogType rt)) (r0 :: rest) rest).filter
        (fun row => ! row.any isNaNB)

/-- Column `j` of a row-major panel. -/
def colAt (j : ℕ) (rows : List (List FVal)) : List FVal :=
  rows.map (fun r => r.getD j FVal.nan)

/-- The observation count that `summary_statistics` records for one series:
`len(returns[col].dropna())`. -/
def observations (col : List FVal) : ℕ := (dropnaS col).length

instance {ε α : Type} [DecidableEq ε] [DecidableEq α] : DecidableEq (Except ε α)
  | .ok x, .ok y =>
      if h : x = y then isTrue (by rw [h])
      else isFalse (by intro hc; cases hc; exact h rfl)
  | .ok _, .error _ => isFalse (by intro hc; cases hc)
  | .error _, .ok _ => isFalse (by intro hc; cases hc)
  | .error x, .error y =>
      if h : x = y then isTrue (by rw [h])
      else isFalse (by intro hc; cases hc; exact h rfl)

/-- One row of the stationarity table of `stationarity_tests`. -/
structure StatRow where
  adfStat : FVal
  adfPval : FVal
  adfVerdict : String
  kpssStat : FVal
  kpssPval : FVal
  kpssVerdict : String
deriving DecidableEq

/-- Placeholder row used as a `getD` default. -/
def defaultStatRow : StatRow := ⟨FVal.nan, FVal.nan, "", FVal.nan, FVal.nan, ""⟩

/-- One stationarity-table row from the outcomes of the two external test
routines: a successful test yields its statistic, p-value and verdict
(`adf_pval < alpha`, respectively `kpss_pval > alpha`, means "Stationary");
an exception is caught and recorded as NaN statistics and verdict "Error". -/
def stationarityRow (adfOut kpssOut : Except Unit (ℚ × ℚ)) (alpha : ℚ) :
    StatRow :=
  let a : FVal × FVal × String :=
    match adfOut with
    | .ok (s, p) =>
        (FVal.fin s, FVal.fin p,
          if p < alpha then "Stationary" else "Non-stationary")
    | .error _ => (FVal.nan, FVal.nan, "Error")
  let k : FVal × FVal × String :=
    match kpssOut with
    | .ok (s, p) =>
        (FVal.fin s, FVal.fin p,
          if alpha < p then "Stationary" else "Non-stationary")
    | .error _ => (FVal.nan, FVal.nan, "Error")
  ⟨a.1, a.2.1, a.2.2, k.1, k.2.1, k.2.2⟩

/-- The function `stationarity_tests`: one row per series, where `adf` and
`kpss` model the external `adfuller` and `kpss` calls on the NaN-dropped
series (`Except.error` standing for a raised exception). -/
def stationarity_tests (adf kpss : List FVal → Except Unit (ℚ × ℚ))
    (alpha : ℚ) (cols : List (List FVal)) : List StatRow :=
  cols.map (fun c => stationarityRow (adf (dropnaS c)) (kpss (dropnaS c)) alpha)

/-- One row of the stylized-facts table of `stylized_facts`. -/
structure StylRow where
  lbStat : FVal
  lbPval : FVal
  archStat : FVal
  archPval : FVal
  hillIdx : FVal
  exKurt : FVal
deriving DecidableEq

/-- Placeholder row used as a `getD` default. -/
def defaultStylRow : StylRow :=
  ⟨FVal.nan, FVal.nan, FVal.nan, FVal.nan, FVal.nan, FVal.nan⟩

/-- One stylized-facts row from the outcomes of the external Ljung-Box and
ARCH-LM routines (final-lag statistic and p-value; an exception is caught and
recorded as a NaN pair), the Hill index and the excess kurtosis. -/
def stylizedRow (lbOut archOut : Except Unit (ℚ × ℚ)) (hillVal kurtVal : FVal) :
    StylRow :=
  let l : FVal × FVal :=
    match lbOut with
    | .ok (s, p) => (FVal.fin s, FVal.fin p)
    | .error _ => (FVal.nan, FVal.nan)
  let a : FVal × FVal :=
    match archOut with
    | .ok (s, p) => (FVal.fin s, FVal.fin p)
    | .error _ => (FVal.nan, FVal.nan)
  ⟨l.1, l.2, a.1, a.2, hillVal, kurtVal⟩

/-- The function `stylized_facts`: one row per series, with `lb` and `arch`
modelling the external `acorr_ljungbox` and `het_arch` calls, `kurt`
modelling `Series.kurtosis()`, and the Hill index computed by
`hill_tail_index` at threshold quantile `tq`. -/
def stylized_facts (lb arch : List FVal → Except Unit (ℚ × ℚ))
    (kurt : List FVal → FVal) (lg : ℚ → ℚ) (tq : ℚ)
    (cols : List (List FVal)) : List StylRow :=
  cols.map (fun c =>
    stylizedRow (lb (dropnaS c)) (arch (dropnaS c))
      (hill_tail_index lg (dropnaS c) tq) (kurt (dropnaS c)))

/-- The configuration fields of `EDAConfig` that `load_data` and
`compute_returns` consult. -/
structure EDAConfig where
  date_column : String
  parse_dates : Bool
  dropna : Bool
  price_columns_include : List String
  price_columns_exclude : List String
  resample : Option String
  return_type : String
deriving DecidableEq

/-- A raw input column: its header name, whether pandas infers a numeric
dtype for it, and its values. -/
structure RawCol where
  name : String
  numeric : Bool
  vals : List FVal
deriving DecidableEq

/-- A data frame, column-major. -/
abbrev Panel := List RawCol

/-- Whether `needle` matches at the head of `hay`. -/
def matchHead : List Char → List Char → Bool
  | [], _ => true
  | _ :: _, [] => false
  | c :: cs, h :: hs => c == h && matchHead cs hs

/-- Whether `needle` occurs anywhere in `hay` (the Python `in` on strings). -/
def containsSub (needle : List Char) : List Char → Bool
  | [] => needle.isEmpty
  | h :: t => matchHead needle (h :: t) || containsSub needle t

/-- Whether the lower-cased `hay` contains `needle`. -/
def strHasSub (hay needle : String) : Bool :=
  containsSub needle.data (lowerData hay)

/-- The date/time-like name pattern of `load_data`: the lower-cased column
name contains "date" or "time". -/
def isDateLike (s : String) : Bool := strHasSub s "date" || strHasSub s "time"

/-- The exclusion pattern for inferred price columns: the lower-cased name
contains "date", "time", "index" or "id". -/
def isExcludedName (s : String) : Bool :=
  strHasSub s "date" || strHasSub s "time" || strHasSub s "index" ||
    strHasSub s "id"

/-- Outcome of the temporal-index resolution of `load_data`. -/
inductive DateRes where
  | explicitCol (n : String)
  | patternCol (n : String)
  | firstParsed (n : String)
  | ordinalKept (warned : Bool)
deriving DecidableEq

/-- The temporal-index resolution of `load_data` (lines 98-115): the declared
`date_column` when it is non-empty and present; otherwise, only when
`parse_dates` is set, the first date/time-like column, else an attempt to
parse the first column (`parseOk` models whether `pd.to_datetime` succeeds),
with a warning and an ordinal index on failure; with `parse_dates` unset the
ordinal index is kept silently. -/
def resolveDateIndex (dateColumn : String) (parseDates : Bool)
    (names : List String) (parseOk : String → Bool) : DateRes :=
  if dateColumn ≠ "" ∧ dateColumn ∈ names then .explicitCol dateColumn
  else if parseDates then
    match names.filter isDateLike with
    | n :: _ => .patternCol n
    | [] =>
        match names with
        | n :: _ => if parseOk n then .firstParsed n else .ordinalKept true
        | [] => .ordinalKept false
  else .ordinalKept false

/-- Applying the resolved index to the frame: a column promoted to the index
by `set_index` leaves the data columns. -/
def applyDate (cfg : EDAConfig) (df : Panel) (parseOk : String → Bool) :
    Panel :=
  match resolveDateIndex cfg.date_column cfg.parse_dates
      (df.map RawCol.name) parseOk with
  | .explicitCol n => df.filter (fun c => c.name != n)
  | .patternCol n => df.filter (fun c => c.name != n)
  | .firstParsed n => df.filter (fun c => c.name != n)
  | .ordinalKept _ => df

/-- Price-column resolution of `load_data`: the explicit include-list if
non-empty, otherwise every numeric column whose name avoids the exclusion
patterns; the exclude-list is then removed. -/
def resolvePriceCols (cfg : EDAConfig) (df : Panel) : List String :=
  let base :=
    if cfg.price_columns_include.isEmpty then
      (df.filter (fun c => ! isExcludedName c.name && c.numeric)).map
        RawCol.name
    else cfg.price_columns_include
  base.filter (fun n => ! cfg.price_columns_exclude.contains n)

/-- Lookup of a named column. -/
def lookupCol (df : Panel) (n : String) : Option RawCol :=
  df.find? (fun c => c.name == n)

/-- Model of `df[price_cols]`: pandas raises a `KeyError` (here `none`) when
a requested name is absent. -/
def selectPanel (df : Panel) (names : List String) : Option Panel :=
  if names.all (fun n => (lookupCol df n).isSome) then
    some (names.filterMap (fun n => lookupCol df n))
  else none

/-- Number of rows of a column-major frame. -/
def nrowsPanel (p : Panel) : ℕ := (p.headD ⟨"", false, []⟩).vals.length

/-- Model of `DataFrame.empty`: some axis has length zero. -/
def panelEmpty (p : Panel) : Bool :=
  p.isEmpty || p.all (fun c => c.vals.isEmpty)

/-- Whether row `i` contains a NaN in any column. -/
def rowHasNaNAt (p : Panel) (i : ℕ) : Bool :=
  p.any (fun c => isNaNB (c.vals.getD i FVal.nan))

/-- Model of row-wise `DataFrame.dropna()`: keep exactly the rows with no
NaN in any column. -/
def dropnaRows (p : Panel) : Panel :=
  let keep := (List.range (nrowsPanel p)).filter (fun i => ! rowHasNaNAt p i)
  p.map (fun c => ⟨c.name, c.numeric, keep.map (fun i => c.vals.getD i FVal.nan)⟩)

/-- Whether the resolved index is datetime-like: every resolution except the
kept ordinal index performs `set_index` on a `to_datetime` column, giving a
`DatetimeIndex`; the ordinal fallback keeps pandas' default `RangeIndex`. -/
def isDatetimeIdx : DateRes → Bool
  | .ordinalKept _ => false
  | _ => true

/-- The function `load_data` of `eda_finance.py` after the file has been
read: index resolution, price-column resolution (empty set is a terminal
error), column selection, the emptiness check, the optional `dropna` with its
emptiness check, and the optional resampling.  `resampleLast` models
`df.resample(rule).last()` on a datetime-indexed frame; when the index is
not datetime-like, `df.resample` raises a `TypeError` that `load_data` does
not catch.  After a successful resample the `dropna()` is applied and the
result returned with no further emptiness check. -/
def load_data (cfg : EDAConfig) (df : Panel) (parseOk : String → Bool)
    (resampleLast : String → Panel → Panel) : Except String Panel :=
  let df1 := applyDate cfg df parseOk
  let priceCols := resolvePriceCols cfg df1
  if priceCols.isEmpty then .error "No price columns found!"
  else
    match selectPanel df1 priceCols with
    | none => .error "KeyError"
    | some sel =>
        if panelEmpty sel then
          .error "No data found after selecting price columns"
        else
          let cleaned := if cfg.dropna then dropnaRows sel else sel
          if cfg.dropna && panelEmpty cleaned then
            .error "No data remaining after dropping NA values"
          else
            match cfg.resample with
            | some rule =>
                if isDatetimeIdx (resolveDateIndex cfg.date_column
                    cfg.parse_dates (df.map RawCol.name) parseOk) then
                  .ok (dropnaRows (resampleLast rule cleaned))
                else .error "TypeError: Only valid with DatetimeIndex"
            | none => .ok cleaned

/-- The rows of a column-major frame. -/
def panelRows (p : Panel) : List (List FVal) :=
  (List.range (nrowsPanel p)).map
    (fun i => p.map (fun c => c.vals.getD i FVal.nan))

/-- The columns of a row-major return panel, one per price column. -/
def returnCols (ncols : ℕ) (rows : List (List FVal)) : List (List FVal) :=
  (List.range ncols).map (fun j => colAt j rows)

/-- The `main` pipeline of `eda_finance.py` reduced to its observable
control flow: any exception from `load_data` is caught by the top-level
handler, which prints a diagnostic and exits with status 1 before any
tabular artifact is written; on success the three diagnostic tables are
computed and the three CSV artifacts are written, with exit status 0. -/
def runMain (lg : ℚ → ℚ) (adf kpss lb arch : List FVal → Except Unit (ℚ × ℚ))
    (kurt : List FVal → FVal) (alpha tq : ℚ) (cfg : EDAConfig) (df : Panel)
    (parseOk : String → Bool) (resampleLast : String → Panel → Panel) :
    ℕ × List String :=
  match load_data cfg df parseOk resampleLast with
  | .error _ => (1, [])
  | .ok prices =>
      let returns := compute_returns lg cfg.return_type (panelRows prices)
      let cols := returnCols prices.length returns
      let _stTable := stationarity_tests adf kpss alpha cols
      let _sfTable := stylized_facts lb arch kurt lg tq cols
      (0, ["summary_stats.csv", "stationarity.csv", "stylized_facts.csv"])

/-- The exceedance set of the Hill-estimator contract as the specification
states it: the elements of the series strictly above the `q`-th quantile. -/
def hillSpecTail (l : List ℚ) (q : ℚ) : List ℚ :=
  l.filter (fun x => decide (quantileQ l q < x))

/-- The mean log-exceedance ratio of the Hill contract as the specification
states it: the mean of `ln(x / u)` over the exceedance set, with the abstract
logarithm `lg`. -/
def hillSpecMean (lg : ℚ → ℚ) (l : List ℚ) (q : ℚ) : ℚ :=
  ((hillSpecTail l q).map (fun x => lg (x / quantileQ l q))).sum /
    ((hillSpecTail l q).length : ℚ)

theorem length_insertLe {α : Type} (le : α → α → Bool) (a : α) (l : List α) :
    (insertLe le a l).length = l.length + 1 := by
  induction l with
  | nil => rfl
  | cons b t ih =>
      simp only [insertLe]
      split
      · rfl
      · simp [ih]

theorem mem_insertLe {α : Type} (le : α → α → Bool) (a x : α) (l : List α) :
    x ∈ insertLe le a l ↔ x = a ∨ x ∈ l := by
  induction l with
  | nil => simp [insertLe]
  | cons b t ih =>
      simp only [insertLe]
      split
      · simp [or_comm, or_assoc, List.mem_cons]
      · simp only [List.mem_cons, ih]
        tauto

theorem length_sortLe {α : Type} (le : α → α → Bool) (l : List α) :
    (sortLe le l).length = l.length := by
  induction l with
  | nil => rfl
  | cons a t ih => simp [sortLe, length_insertLe, ih]

theorem mem_sortLe {α : Type} (le : α → α → Bool) (x : α) (l : List α) :
    x ∈ sortLe le l ↔ x ∈ l := by
  induction l with
  | nil => simp [sortLe]
  | cons a t ih => simp [sortLe, mem_insertLe, ih]

theorem insertLe_map_fin (a : ℚ) (l : List ℚ) :
    insertLe vle (FVal.fin a) (l.map FVal.fin) =
      (insertLe qle a l).map FVal.fin := by
  induction l with
  | nil => rfl
  | cons b t ih =>
      simp only [List.map_cons, insertLe]
      have hvq : vle (FVal.fin a) (FVal.fin b) = qle a b := rfl
      rw [hvq]
      split
      · simp
      · simp [ih]

theorem sortLe_map_fin (l : List ℚ) :
    sortLe vle (l.map FVal.fin) = (sortLe qle l).map FVal.fin := by
  induction l with
  | nil => rfl
  | cons a t ih => simp [sortLe, ih, insertLe_map_fin]

theorem dropnaS_map_fin (l : List ℚ) :
    dropnaS (l.map FVal.fin) = l.map FVal.fin := by
  rw [dropnaS, List.filter_eq_self]
  intro v hv
  rcases List.mem_map.mp hv with ⟨x, _, rfl⟩
  rfl

theorem getD_map_fin (l : List ℚ) (i : ℕ) (h : i < l.length) (d : FVal) :
    (l.map FVal.fin).getD i d = FVal.fin (l.getD i 0) := by
  have hm : i < (l.map FVal.fin).length := by simpa using h
  rw [List.getD_eq_getElem _ _ hm, List.getD_eq_getElem _ _ h]
  simp

theorem ratFloor_eq (a : ℚ) : Rat.floor a = ⌊a⌋ :=
  (Rat.floor_def' a).trans Rat.floor_def.symm

theorem floorIdx_lt (n : ℕ) (hn : 0 < n) (q : ℚ) (_hq0 : 0 ≤ q) (hq1 : q ≤ 1) :
    (Rat.floor (((n - 1 : ℕ) : ℚ) * q)).toNat < n := by
  rw [ratFloor_eq]
  have h1 : ((n - 1 : ℕ) : ℚ) * q ≤ ((n - 1 : ℕ) : ℚ) :=
    mul_le_of_le_one_right (by positivity) hq1
  have h2 : ⌊((n - 1 : ℕ) : ℚ) * q⌋ ≤ ((n - 1 : ℕ) : ℤ) := by
    calc ⌊((n - 1 : ℕ) : ℚ) * q⌋ ≤ ⌊((n - 1 : ℕ) : ℚ)⌋ := Int.floor_le_floor h1
    _ = ((n - 1 : ℕ) : ℤ) := Int.floor_natCast _
  have h3 : (⌊((n - 1 : ℕ) : ℚ) * q⌋).toNat ≤ n - 1 := by
    omega
  omega

theorem fract_nonneg_q (h : ℚ) : 0 ≤ h - ((Rat.floor h : ℤ) : ℚ) := by
  rw [ratFloor_eq, Int.self_sub_floor]
  exact Int.fract_nonneg h

theorem fract_lt_one_q (h : ℚ) : h - ((Rat.floor h : ℤ) : ℚ) < 1 := by
  rw [ratFloor_eq, Int.self_sub_floor]
  exact Int.fract_lt_one h

theorem quantileCore_map_fin (l : List ℚ) (hl : l ≠ []) (q : ℚ)
    (hq0 : 0 ≤ q) (hq1 : q ≤ 1) :
    quantileCore (l.map FVal.fin) q = FVal.fin (quantileQ l q) := by
  have hlen : (sortLe qle l).length = l.length := length_sortLe qle l
  have hpos0 : 0 < l.length := List.length_pos.mpr hl
  have hne : ((sortLe qle l).map FVal.fin).isEmpty = false := by
    rw [List.isEmpty_eq_false, ← List.length_pos, List.length_map, hlen]
    exact hpos0
  have hneQ : (sortLe qle l).isEmpty = false := by
    rw [List.isEmpty_eq_false, ← List.length_pos, hlen]
    exact hpos0
  rw [quantileCore, quantileQ]
  simp only [dropnaS_map_fin, sortLe_map_fin, hne, hneQ, Bool.false_eq_true,
    if_false, List.length_map]
  set L := sortLe qle l with hL
  have hn : 0 < L.length := by rw [hL, hlen]; exact hpos0
  have hi : (Rat.floor (((L.length - 1 : ℕ) : ℚ) * q)).toNat < L.length :=
    floorIdx_lt L.length hn q hq0 hq1
  have hj : min ((Rat.floor (((L.length - 1 : ℕ) : ℚ) * q)).toNat + 1)
      (L.length - 1) < L.length := by omega
  rw [getD_map_fin L _ hi, getD_map_fin L _ hj]
  simp [fadd, fneg, fsub, smulF, sub_eq_add_neg]

theorem getD_mem_of_lt {α : Type} (l : List α) (i : ℕ) (d : α)
    (h : i < l.length) : l.getD i d ∈ l := by
  rw [List.getD_eq_getElem _ _ h]
  exact List.getElem_mem h

theorem quantileQ_pos (l : List ℚ) (hl : l ≠ []) (hpos : ∀ x ∈ l, 0 < x)
    (q : ℚ) (hq0 : 0 ≤ q) (hq1 : q ≤ 1) : 0 < quantileQ l q := by
  have hlen : (sortLe qle l).length = l.length := length_sortLe qle l
  have hpos0 : 0 < l.length := List.length_pos.mpr hl
  have hneQ : (sortLe qle l).isEmpty = false := by
    rw [List.isEmpty_eq_false, ← List.length_pos, hlen]
    exact hpos0
  rw [quantileQ]
  simp only [hneQ, Bool.false_eq_true, if_false]
  set L := sortLe qle l with hL
  have hn : 0 < L.length := by rw [hL, hlen]; exact hpos0
  have hi : (Rat.floor (((L.length - 1 : ℕ) : ℚ) * q)).toNat < L.length :=
    floorIdx_lt L.length hn q hq0 hq1
  have hj : min ((Rat.floor (((L.length - 1 : ℕ) : ℚ) * q)).toNat + 1)
      (L.length - 1) < L.length := by omega
  have hlo : 0 < L.getD ((Rat.floor (((L.length - 1 : ℕ) : ℚ) * q)).toNat) 0 :=
    hpos _ ((mem_sortLe qle _ l).mp (getD_mem_of_lt L _ 0 hi))
  have hhi : 0 < L.getD (min ((Rat.floor (((L.length - 1 : ℕ) : ℚ) * q)).toNat + 1)
      (L.length - 1)) 0 :=
    hpos _ ((mem_sortLe qle _ l).mp (getD_mem_of_lt L _ 0 hj))
  have hg0 : 0 ≤ ((L.length - 1 : ℕ) : ℚ) * q -
      ((Rat.floor (((L.length - 1 : ℕ) : ℚ) * q) : ℤ) : ℚ) := fract_nonneg_q _
  have hg1 : ((L.length - 1 : ℕ) : ℚ) * q -
      ((Rat.floor (((L.length - 1 : ℕ) : ℚ) * q) : ℤ) : ℚ) < 1 := fract_lt_one_q _
  set g := ((L.length - 1 : ℕ) : ℚ) * q -
      ((Rat.floor (((L.length - 1 : ℕ) : ℚ) * q) : ℤ) : ℚ) with hgdef
  set lo := L.getD ((Rat.floor (((L.length - 1 : ℕ) : ℚ) * q)).toNat) 0 with hlodef
  set hi2 := L.getD (min ((Rat.floor (((L.length - 1 : ℕ) : ℚ) * q)).toNat + 1)
      (L.length - 1)) 0 with hhidef
  have hexp : lo + g * (hi2 - lo) = (1 - g) * lo + g * hi2 := by ring
  rw [hexp]
  have h1 : 0 < (1 - g) * lo := mul_pos (by linarith) hlo
  have h2 : 0 ≤ g * hi2 := mul_nonneg hg0 hhi.le
  linarith

theorem fsum_map_fin (l : List ℚ) : fsum (l.map FVal.fin) = FVal.fin l.sum := by
  induction l with
  | nil => rfl
  | cons a t ih =>
      simp only [List.map_cons, fsum, List.foldr_cons, List.sum_cons]
      have ht : List.foldr fadd (FVal.fin 0) (t.map FVal.fin) =
          FVal.fin t.sum := ih
      rw [ht]
      rfl

theorem fmean_map_fin (l : List ℚ) (hl : l ≠ []) :
    fmean (l.map FVal.fin) = FVal.fin (l.sum / (l.length : ℚ)) := by
  have hlen : (0 : ℕ) < l.length := List.length_pos.mpr hl
  rw [fmean]
  simp only [dropnaS_map_fin, List.length_map, fsum_map_fin]
  rw [if_neg (by omega)]
  have : smulF (1 / (l.length : ℚ)) (FVal.fin l.sum) =
      FVal.fin ((1 / (l.length : ℚ)) * l.sum) := rfl
  rw [this, one_div_mul_eq_div]

theorem hill_fin_eval (lg : ℚ → ℚ) (l : List ℚ) (q : ℚ)
    (hpos : ∀ x ∈ l, 0 < x) (hq0 : 0 ≤ q) (hq1 : q ≤ 1)
    (hT : 10 ≤ (hillSpecTail l q).length)
    (hlg : ∀ r, 1 < r → 0 < lg r) :
    hill_tail_index lg (l.map FVal.fin) q =
      FVal.fin (1 / hillSpecMean lg l q) ∧ 0 < hillSpecMean lg l q := by
  have hl : l ≠ [] := by
    intro h
    rw [h] at hT
    simp [hillSpecTail] at hT
  have hu : 0 < quantileQ l q := quantileQ_pos l hl hpos q hq0 hq1
  set u := quantileQ l q with hudef
  have hfilter : (l.map FVal.fin).filter (fun x => fgt x (FVal.fin u)) =
      (hillSpecTail l q).map FVal.fin := by
    rw [hillSpecTail, List.filter_map]
    rfl
  have hmap : ((hillSpecTail l q).map FVal.fin).map
        (fun x => flog lg (fdivF x (FVal.fin u))) =
      ((hillSpecTail l q).map (fun x => lg (x / u))).map FVal.fin := by
    rw [List.map_map, List.map_map]
    apply List.map_congr_left
    intro x hx
    have hxu : u < x := by
      have hfx := List.of_mem_filter hx
      simpa using hfx
    have hx0 : (0 : ℚ) < x := lt_trans hu hxu
    have hdiv : fdivF (FVal.fin x) (FVal.fin u) = FVal.fin (x / u) := by
      simp [fdivF, hu.ne']
    simp [Function.comp, hdiv, flog, div_pos hx0 hu]
  have hTne : (hillSpecTail l q).map (fun x => lg (x / u)) ≠ [] := by
    intro hcon
    have hlencon := congrArg List.length hcon
    simp only [List.length_map, List.length_nil] at hlencon
    omega
  have hm : 0 < hillSpecMean lg l q := by
    rw [hillSpecMean]
    apply div_pos
    · apply List.sum_pos
      · intro y hy
        rcases List.mem_map.mp hy with ⟨x, hx, rfl⟩
        have hxu : u < x := by
          have hfx := List.of_mem_filter hx
          simpa using hfx
        exact hlg _ ((one_lt_div hu).mpr hxu)
      · exact hTne
    · have : (0 : ℕ) < (hillSpecTail l q).length := by omega
      exact_mod_cast this
  have hmean : fmean (((hillSpecTail l q).map FVal.fin).map
        (fun x => flog lg (fdivF x (FVal.fin u)))) =
      FVal.fin (hillSpecMean lg l q) := by
    rw [hmap, fmean_map_fin _ hTne, hillSpecMean]
    simp
  have hbody : hillBody lg (l.map FVal.fin) q =
      .ok (FVal.fin (1 / hillSpecMean lg l q)) := by
    rw [hillBody]
    simp only [quantileF, if_pos (And.intro hq0 hq1)]
    show Except.bind (Except.ok (quantileCore (l.map FVal.fin) q)) _ = _
    rw [Except.bind, quantileCore_map_fin l hl q hq0 hq1]
    simp only [← hudef, hfilter, List.length_map]
    rw [if_neg (by omega)]
    rw [hmean]
    have hdone : fdivF (FVal.fin 1) (FVal.fin (hillSpecMean lg l q)) =
        FVal.fin (1 / hillSpecMean lg l q) := by
      simp [fdivF, hm.ne']
    rw [hdone]
    rfl
  constructor
  · rw [hill_tail_index, hbody]
  · exact hm

/-- Claim C1: on a one-dimensional numeric series of (positive) finite
values with no missing entries and a threshold quantile `q` in `(0,1)`, when
the exceedance set above `u = quantile(X, q)` has at least 10 elements,
`hill_tail_index` returns exactly `1 / mean(ln(x / u) for x in T)`; `lg` is
any logarithm positive on arguments above one, as the natural logarithm is
on the ratios `x / u > 1` that arise here. -/
theorem hill_formula_spec (lg : ℚ → ℚ) (l : List ℚ) (q : ℚ)
    (hpos : ∀ x ∈ l, 0 < x) (hq0 : 0 < q) (hq1 : q < 1)
    (hT : 10 ≤ (hillSpecTail l q).length)
    (hlg : ∀ r, 1 < r → 0 < lg r) :
    hill_tail_index lg (l.map FVal.fin) q =
      FVal.fin (1 / hillSpecMean lg l q) :=
  (hill_fin_eval lg l q hpos hq0.le hq1.le hT hlg).1

/-- Witness for C1 at a concrete series of ten ones and ten twos with
`q = 1/2` and `lg r = r - 1`. -/
theorem hill_formula_spec_witness :
    hill_tail_index (fun r => r - 1)
        (List.map FVal.fin [1, 1, 1, 1, 1, 1, 1, 1, 1, 1, 2, 2, 2, 2, 2, 2, 2, 2, 2, 2])
        (1/2) =
      FVal.fin (1 / hillSpecMean (fun r => r - 1)
        [1, 1, 1, 1, 1, 1, 1, 1, 1, 1, 2, 2, 2, 2, 2, 2, 2, 2, 2, 2] (1/2)) :=
  hill_formula_spec (fun r => r - 1)
    [1, 1, 1, 1, 1, 1, 1, 1, 1, 1, 2, 2, 2, 2, 2, 2, 2, 2, 2, 2] (1/2)
    (by decide) (by norm_num) (by norm_num) (by decide)
    (fun r hr => sub_pos.mpr hr)

/-- Claim C3: on a series of strictly positive finite values whose
exceedance set above the `q`-th quantile has at least 10 elements,
`hill_tail_index` returns a strictly positive finite value. -/
theorem hill_pos_finite (lg : ℚ → ℚ) (l : List ℚ) (q : ℚ)
    (hpos : ∀ x ∈ l, 0 < x) (hq0 : 0 < q) (hq1 : q < 1)
    (hT : 10 ≤ (hillSpecTail l q).length)
    (hlg : ∀ r, 1 < r → 0 < lg r) :
    isFiniteB (hill_tail_index lg (l.map FVal.fin) q) = true ∧
      ∃ r : ℚ, hill_tail_index lg (l.map FVal.fin) q = FVal.fin r ∧ 0 < r := by
  obtain ⟨heq, hm⟩ := hill_fin_eval lg l q hpos hq0.le hq1.le hT hlg
  exact ⟨by rw [heq]; rfl, 1 / hillSpecMean lg l q, heq, by positivity⟩

/-- Witness for C3 at a concrete series of ten ones and ten fours. -/
theorem hill_pos_finite_witness :
    isFiniteB (hill_tail_index (fun r => r - 1)
        (List.map FVal.fin [1, 1, 1, 1, 1, 1, 1, 1, 1, 1, 4, 4, 4, 4, 4, 4, 4, 4, 4, 4])
        (1/2)) = true ∧
      ∃ r : ℚ, hill_tail_index (fun r => r - 1)
          (List.map FVal.fin [1, 1, 1, 1, 1, 1, 1, 1, 1, 1, 4, 4, 4, 4, 4, 4, 4, 4, 4, 4])
          (1/2) = FVal.fin r ∧ 0 < r :=
  hill_pos_finite (fun r => r - 1)
    [1, 1, 1, 1, 1, 1, 1, 1, 1, 1, 4, 4, 4, 4, 4, 4, 4, 4, 4, 4] (1/2)
    (by decide) (by norm_num) (by norm_num) (by decide)
    (fun r hr => sub_pos.mpr hr)

/-- Claim C2: for every series and valid threshold quantile, fewer than 10
exceedances above the empirical quantile give NaN, and with 10 or more the
estimator `1 / mean(log exceedance ratios)` is computed and returned; the
boundary at 9 versus 10 points is exercised by the witness. -/
theorem hill_min_tail_boundary (lg : ℚ → ℚ) (xs : List FVal) (q : ℚ)
    (hq0 : 0 ≤ q) (hq1 : q ≤ 1) :
    ((xs.filter (fun x => fgt x (quantileCore xs q))).length < 10 →
        hill_tail_index lg xs q = FVal.nan) ∧
      (10 ≤ (xs.filter (fun x => fgt x (quantileCore xs q))).length →
        hill_tail_index lg xs q =
          fdivF (FVal.fin 1)
            (fmean ((xs.filter (fun x => fgt x (quantileCore xs q))).map
              (fun x => flog lg (fdivF x (quantileCore xs q)))))) := by
  have hq : quantileF xs q = .ok (quantileCore xs q) := by
    rw [quantileF, if_pos (And.intro hq0 hq1)]
  have hb : hillBody lg xs q =
      (if (xs.filter (fun x => fgt x (quantileCore xs q))).length < 10 then
        Except.ok FVal.nan
      else
        Except.ok (fdivF (FVal.fin 1)
          (fmean ((xs.filter (fun x => fgt x (quantileCore xs q))).map
            (fun x => flog lg (fdivF x (quantileCore xs q))))))) := by
    rw [hillBody]
    show Except.bind (quantileF xs q) _ = _
    rw [hq, Except.bind]
    show (if (xs.filter (fun x => fgt x (quantileCore xs q))).length < 10 then
        (pure FVal.nan : Except Unit FVal)
      else
        pure (fdivF (FVal.fin 1)
          (fmean ((xs.filter (fun x => fgt x (quantileCore xs q))).map
            (fun x => flog lg (fdivF x (quantileCore xs q))))))) = _
    by_cases hc : (xs.filter (fun x => fgt x (quantileCore xs q))).length < 10
    · rw [if_pos hc, if_pos hc]
      rfl
    · rw [if_neg hc, if_neg hc]
      rfl
  constructor
  · intro hlt
    rw [hill_tail_index, hb, if_pos hlt]
  · intro hge
    rw [hill_tail_index, hb, if_neg (not_lt.mpr hge)]

/-- Witness for C2: with `q = 1/2`, a series with exactly 9 points above the
quantile gives NaN, and one with exactly 10 gives the computed estimator. -/
theorem hill_min_tail_boundary_witness :
    hill_tail_index (fun r => r - 1)
        (List.map FVal.fin [0, 0, 0, 0, 0, 0, 0, 0, 0, 0, 0, 1, 1, 1, 1, 1, 1, 1, 1, 1])
        (1/2) = FVal.nan ∧
      hill_tail_index (fun r => r - 1)
        (List.map FVal.fin [0, 0, 0, 0, 0, 0, 0, 0, 0, 0, 1, 1, 1, 1, 1, 1, 1, 1, 1, 1])
        (1/2) = FVal.fin 1 := by
  constructor
  · exact (hill_min_tail_boundary (fun r => r - 1)
      (List.map FVal.fin [0, 0, 0, 0, 0, 0, 0, 0, 0, 0, 0, 1, 1, 1, 1, 1, 1, 1, 1, 1])
      (1/2) (by norm_num) (by norm_num)).1 (by decide)
  · exact ((hill_min_tail_boundary (fun r => r - 1)
      (List.map FVal.fin [0, 0, 0, 0, 0, 0, 0, 0, 0, 0, 1, 1, 1, 1, 1, 1, 1, 1, 1, 1])
      (1/2) (by norm_num) (by norm_num)).2 (by decide)).trans (by decide)

/-- Claim C10: `hill_tail_index` is total and never propagates an exception:
a threshold quantile outside `[0, 1]` (where pandas raises and the handler
catches), the empty series, and a constant series all yield NaN, and
whenever the body raises, the caught result is NaN. -/
theorem hill_total_never_raises :
    (∀ (lg : ℚ → ℚ) (xs : List FVal) (q : ℚ), ¬ (0 ≤ q ∧ q ≤ 1) →
        hill_tail_index lg xs q = FVal.nan) ∧
      (∀ (lg : ℚ → ℚ) (q : ℚ), hill_tail_index lg [] q = FVal.nan) ∧
      (∀ (lg : ℚ → ℚ) (xs : List FVal) (q : ℚ) (c : ℚ),
        (∀ x ∈ xs, x = FVal.fin c) → hill_tail_index lg xs q = FVal.nan) ∧
      (∀ (lg : ℚ → ℚ) (xs : List FVal) (q : ℚ) (e : Unit),
        hillBody lg xs q = .error e → hill_tail_index lg xs q = FVal.nan) := by
  have part1 : ∀ (lg : ℚ → ℚ) (xs : List FVal) (q : ℚ), ¬ (0 ≤ q ∧ q ≤ 1) →
      hill_tail_index lg xs q = FVal.nan := by
    intro lg xs q hq
    have hb : hillBody lg xs q = .error () := by
      rw [hillBody]
      show Except.bind (quantileF xs q) _ = _
      rw [quantileF, if_neg hq]
      rfl
    rw [hill_tail_index, hb]
  have part4 : ∀ (lg : ℚ → ℚ) (xs : List FVal) (q : ℚ) (e : Unit),
      hillBody lg xs q = .error e → hill_tail_index lg xs q = FVal.nan := by
    intro lg xs q e hb
    rw [hill_tail_index, hb]
  have part2 : ∀ (lg : ℚ → ℚ) (q : ℚ), hill_tail_index lg [] q = FVal.nan := by
    intro lg q
    by_cases hq : 0 ≤ q ∧ q ≤ 1
    · have hb : hillBody lg [] q = .ok FVal.nan := by
        rw [hillBody]
        show Except.bind (quantileF [] q) _ = _
        rw [quantileF, if_pos hq]
        rfl
      rw [hill_tail_index, hb]
    · exact part1 lg [] q hq
  have part3 : ∀ (lg : ℚ → ℚ) (xs : List FVal) (q : ℚ) (c : ℚ),
      (∀ x ∈ xs, x = FVal.fin c) → hill_tail_index lg xs q = FVal.nan := by
    intro lg xs q c hconst
    by_cases hq : 0 ≤ q ∧ q ≤ 1
    · by_cases hxsnil : xs = []
      · rw [hxsnil]; exact part2 lg q
      · have hxsne : xs ≠ [] := hxsnil
        have hdrop : dropnaS xs = xs := by
          rw [dropnaS, List.filter_eq_self]
          intro v hv
          rw [hconst v hv]
          rfl
        have hlenpos : 0 < xs.length := List.length_pos.mpr hxsne
        have hne : (sortLe vle xs).isEmpty = false := by
          rw [List.isEmpty_eq_false, ← List.length_pos, length_sortLe]
          exact hlenpos
        have hmemc : ∀ v ∈ sortLe vle xs, v = FVal.fin c := fun v hv =>
          hconst v ((mem_sortLe vle v xs).mp hv)
        have hucore : quantileCore xs q = FVal.fin c := by
          rw [quantileCore]
          simp only [hdrop, hne, Bool.false_eq_true, if_false]
          have hn : 0 < (sortLe vle xs).length := by
            rw [length_sortLe]; exact hlenpos
          have hi : (Rat.floor ((((sortLe vle xs).length - 1 : ℕ) : ℚ) * q)).toNat <
              (sortLe vle xs).length :=
            floorIdx_lt _ hn q hq.1 hq.2
          have hj : min ((Rat.floor ((((sortLe vle xs).length - 1 : ℕ) : ℚ) * q)).toNat + 1)
              ((sortLe vle xs).length - 1) < (sortLe vle xs).length := by omega
          rw [hmemc _ (getD_mem_of_lt _ _ FVal.nan hi),
            hmemc _ (getD_mem_of_lt _ _ FVal.nan hj)]
          show FVal.fin (c + _ * (c + -c)) = FVal.fin c
          norm_num
        have htail : xs.filter (fun x => fgt x (quantileCore xs q)) = [] := by
          rw [hucore, List.filter_eq_nil_iff]
          intro a ha
          rw [hconst a ha]
          simp [fgt]
        have hb : hillBody lg xs q = .ok FVal.nan := by
          rw [hillBody]
          show Except.bind (quantileF xs q) _ = _
          rw [quantileF, if_pos hq, Except.bind]
          show (if (xs.filter (fun x => fgt x (quantileCore xs q))).length < 10 then
              (pure FVal.nan : Except Unit FVal)
            else
              pure (fdivF (FVal.fin 1)
                (fmean ((xs.filter (fun x => fgt x (quantileCore xs q))).map
                  (fun x => flog lg (fdivF x (quantileCore xs q))))))) = _
          rw [htail]
          rfl
        rw [hill_tail_index, hb]
    · exact part1 lg xs q hq
  exact ⟨part1, part2, part3, part4⟩

/-- Witness for C10: an out-of-range quantile, the empty series, a constant
series, and a body that raises all produce NaN. -/
theorem hill_total_never_raises_witness :
    hill_tail_index (fun r => r) [FVal.fin 1] (3/2) = FVal.nan ∧
      hill_tail_index (fun r => r) [] (1/2) = FVal.nan ∧
      hill_tail_index (fun r => r) [FVal.fin 5, FVal.fin 5] (1/2) = FVal.nan ∧
      hill_tail_index (fun r => r) [FVal.fin 1] 2 = FVal.nan := by
  refine ⟨?_, ?_, ?_, ?_⟩
  · exact hill_total_never_raises.1 _ _ _ (by norm_num)
  · exact hill_total_never_raises.2.1 _ _
  · exact hill_total_never_raises.2.2.1 _ _ _ 5 (by decide)
  · exact hill_total_never_raises.2.2.2 _ _ _ () (by decide)

/-- A value that is finite and strictly positive, as a decidable Boolean. -/
def isPosFinB (v : FVal) : Bool := isFiniteB v && decide (0 < finPart v)

theorem of_mem_zipWith {α β γ : Type} (f : α → β → γ) :
    ∀ (as : List α) (bs : List β) (x : γ), x ∈ List.zipWith f as bs →
      ∃ a, a ∈ as ∧ ∃ b, b ∈ bs ∧ x = f a b := by
  intro as
  induction as with
  | nil => intro bs x hx; simp at hx
  | cons a t ih =>
      intro bs x hx
      cases bs with
      | nil => simp at hx
      | cons b bt =>
          rw [List.zipWith_cons_cons] at hx
          rcases List.mem_cons.mp hx with h | h
          · exact ⟨a, List.mem_cons_self a t, b, List.mem_cons_self b bt, h⟩
          · rcases ih bt x h with ⟨a2, ha2, b2, hb2, hxe⟩
            exact ⟨a2, List.mem_cons_of_mem a ha2, b2,
              List.mem_cons_of_mem b hb2, hxe⟩

theorem isPosFinB_elim (v : FVal) (h : isPosFinB v = true) :
    v = FVal.fin (finPart v) ∧ 0 < finPart v := by
  cases v with
  | fin a => exact ⟨rfl, by simpa [isPosFinB, finPart, isFiniteB] using h⟩
  | nan => simp [isPosFinB, isFiniteB] at h
  | pinf => simp [isPosFinB, isFiniteB] at h
  | ninf => simp [isPosFinB, isFiniteB] at h

theorem retRow_log_entry (lg : ℚ → ℚ) (a b : FVal)
    (ha : isPosFinB a = true) (hb : isPosFinB b = true) :
    flog lg (fdivF b a) = FVal.fin (lg (finPart b / finPart a)) := by
  cases a with
  | fin x =>
      cases b with
      | fin y =>
          have hx : 0 < x := by simpa [isPosFinB, isFiniteB, finPart] using ha
          have hy : 0 < y := by simpa [isPosFinB, isFiniteB, finPart] using hb
          have hdiv : fdivF (FVal.fin y) (FVal.fin x) = FVal.fin (y / x) := by
            simp [fdivF, hx.ne']
          rw [hdiv]
          simp [flog, finPart, div_pos hy hx]
      | nan => simp [isPosFinB, isFiniteB] at hb
      | pinf => simp [isPosFinB, isFiniteB] at hb
      | ninf => simp [isPosFinB, isFiniteB] at hb
  | nan => simp [isPosFinB, isFiniteB] at ha
  | pinf => simp [isPosFinB, isFiniteB] at ha
  | ninf => simp [isPosFinB, isFiniteB] at ha

theorem retRow_log_fin (lg : ℚ → ℚ) (prev cur : List FVal)
    (hp : ∀ v ∈ prev, isPosFinB v = true)
    (hc : ∀ v ∈ cur, isPosFinB v = true) :
    ∀ v ∈ retRow lg true prev cur, ∃ a : ℚ, v = FVal.fin a := by
  intro v hv
  rw [retRow, if_pos rfl] at hv
  rcases of_mem_zipWith _ prev cur v hv with ⟨a, ha, b, hb, rfl⟩
  rw [retRow_log_entry lg a b (hp a ha) (hc b hb)]
  exact ⟨_, rfl⟩

theorem filter_zipWith_keep (lg : ℚ → ℚ) (prev : List FVal)
    (rows : List (List FVal))
    (hprev : ∀ v ∈ prev, isPosFinB v = true)
    (hrows : ∀ r ∈ rows, ∀ v ∈ r, isPosFinB v = true) :
    (List.zipWith (retRow lg true) (prev :: rows) rows).filter
        (fun row => ! row.any isNaNB) =
      List.zipWith (retRow lg true) (prev :: rows) rows := by
  rw [List.filter_eq_self]
  intro row hrow
  rcases of_mem_zipWith _ (prev :: rows) rows row hrow with ⟨a, ha, b, hb, rfl⟩
  have hah : ∀ v ∈ a, isPosFinB v = true := by
    rcases List.mem_cons.mp ha with h | h
    · rw [h]; exact hprev
    · exact hrows a h
  have hfin := retRow_log_fin lg a b hah (hrows b hb)
  simp only [Bool.not_eq_eq_eq_not, Bool.not_true, List.any_eq_false]
  intro v hv
  rcases hfin v hv with ⟨x, rfl⟩
  simp [isNaNB]

theorem compute_returns_log_eq (lg : ℚ → ℚ) (rows : List (List FVal))
    (hpos : ∀ r ∈ rows, ∀ v ∈ r, isPosFinB v = true)
    (hcols : ∀ r ∈ rows, r ≠ []) :
    compute_returns lg "log" rows =
      List.zipWith (retRow lg true) rows rows.tail := by
  cases rows with
  | nil => rfl
  | cons r0 rest =>
      rw [compute_returns]
      have hlogt : isLogType "log" = true := by decide
      rw [hlogt]
      have hr0ne : r0 ≠ [] := hcols r0 (List.mem_cons_self r0 rest)
      have hhead : ((r0.map (fun _ => FVal.nan)).any isNaNB) = true := by
        cases r0 with
        | nil => exact absurd rfl hr0ne
        | cons c t => simp [isNaNB]
      rw [List.filter_cons]
      rw [hhead]
      show (List.zipWith (retRow lg true) (r0 :: rest) rest).filter
          (fun row => ! row.any isNaNB) = _
      rw [filter_zipWith_keep lg r0 rest
        (hpos r0 (List.mem_cons_self r0 rest))
        (fun r hr => hpos r (List.mem_cons_of_mem r0 hr))]
      rfl

/-- Claim C4: with `return_type = "log"` on a panel of strictly positive
finite prices, `compute_returns` yields `ln(price[t] / price[t-1])` for every
series and every row after the first, drops exactly the first row, leaves no
missing values, and the observation count recorded for each series equals the
number of return rows. -/
theorem log_returns_spec (lg : ℚ → ℚ) (rows : List (List FVal)) (ncols : ℕ)
    (hw : ∀ r ∈ rows, r.length = ncols) (hc : 0 < ncols)
    (hpos : ∀ r ∈ rows, ∀ v ∈ r, isPosFinB v = true) :
    (compute_returns lg "log" rows).length = rows.length - 1 ∧
      (∀ t, t + 1 < rows.length → ∀ j, j < ncols →
        ((compute_returns lg "log" rows).getD t []).getD j FVal.nan =
          FVal.fin (lg (finPart ((rows.getD (t+1) []).getD j FVal.nan) /
            finPart ((rows.getD t []).getD j FVal.nan)))) ∧
      (∀ row ∈ compute_returns lg "log" rows, ∀ v ∈ row, isNaNB v = false) ∧
      (∀ j, j < ncols →
        observations (colAt j (compute_returns lg "log" rows)) =
          rows.length - 1) := by
  have hcols : ∀ r ∈ rows, r ≠ [] := by
    intro r hr hcon
    have hrl := hw r hr
    rw [hcon] at hrl
    simp at hrl
    omega
  have heq := compute_returns_log_eq lg rows hpos hcols
  have hlen : (compute_returns lg "log" rows).length = rows.length - 1 := by
    rw [heq, List.length_zipWith, List.length_tail]
    omega
  refine ⟨hlen, ?_, ?_, ?_⟩
  · intro t ht j hj
    have htr : t < rows.length := by omega
    have hplen : (rows[t]).length = ncols := hw _ (List.getElem_mem htr)
    have hclen : (rows[t+1]).length = ncols := hw _ (List.getElem_mem ht)
    have hjp : j < (rows[t]).length := by omega
    have hjc : j < (rows[t+1]).length := by omega
    have hza : t < (List.zipWith (retRow lg true) rows rows.tail).length := by
      rw [List.length_zipWith, List.length_tail]
      omega
    rw [heq, List.getD_eq_getElem _ _ hza, List.getElem_zipWith,
      List.getElem_tail]
    rw [retRow, if_pos rfl]
    have hzb : j < (List.zipWith (fun a b => flog lg (fdivF b a))
        rows[t] rows[t+1]).length := by
      rw [List.length_zipWith]
      omega
    rw [List.getD_eq_getElem _ _ hzb, List.getElem_zipWith]
    rw [retRow_log_entry lg (rows[t])[j] (rows[t+1])[j]
      (hpos _ (List.getElem_mem htr) _ (List.getElem_mem hjp))
      (hpos _ (List.getElem_mem ht) _ (List.getElem_mem hjc))]
    rw [List.getD_eq_getElem rows [] ht, List.getD_eq_getElem rows [] htr,
      List.getD_eq_getElem _ _ hjc, List.getD_eq_getElem _ _ hjp]
  · intro row hrow v hv
    rw [heq] at hrow
    rcases of_mem_zipWith _ rows rows.tail row hrow with ⟨a, haa, b, hbb, rfl⟩
    rcases retRow_log_fin lg a b (hpos a haa)
      (hpos b (List.mem_of_mem_tail hbb)) v hv with ⟨x, rfl⟩
    rfl
  · intro j hj
    rw [observations, colAt]
    have hkeep : dropnaS ((compute_returns lg "log" rows).map
          (fun r => r.getD j FVal.nan)) =
        (compute_returns lg "log" rows).map (fun r => r.getD j FVal.nan) := by
      rw [dropnaS, List.filter_eq_self]
      intro v hv
      rcases List.mem_map.mp hv with ⟨row, hrow, rfl⟩
      rw [heq] at hrow
      rcases of_mem_zipWith _ rows rows.tail row hrow with ⟨a, haa, b, hbb, rfl⟩
      have halen : a.length = ncols := hw a haa
      have hblen : b.length = ncols := hw b (List.mem_of_mem_tail hbb)
      have hjr : j < (retRow lg true a b).length := by
        rw [retRow, if_pos rfl, List.length_zipWith]
        omega
      rcases retRow_log_fin lg a b (hpos a haa)
          (hpos b (List.mem_of_mem_tail hbb)) _
          (getD_mem_of_lt _ _ FVal.nan hjr) with ⟨x, hx⟩
      rw [hx]
      rfl
    rw [hkeep, List.length_map, hlen]

set_option maxRecDepth 4000 in
/-- Witness for C4: a panel of two columns and 252 rows of constant price 1
gives a 251-row return panel and observation count 251 for both series. -/
theorem log_returns_spec_witness :
    (compute_returns (fun r => r - 1) "log"
        (List.replicate 252 [FVal.fin 1, FVal.fin 1])).length = 251 ∧
      observations (colAt 0 (compute_returns (fun r => r - 1) "log"
        (List.replicate 252 [FVal.fin 1, FVal.fin 1]))) = 251 ∧
      observations (colAt 1 (compute_returns (fun r => r - 1) "log"
        (List.replicate 252 [FVal.fin 1, FVal.fin 1]))) = 251 := by
  obtain ⟨h1, _h2, _h3, h4⟩ := log_returns_spec (fun r => r - 1)
    (List.replicate 252 [FVal.fin 1, FVal.fin 1]) 2
    (by decide) (by decide) (by decide)
  exact ⟨h1.trans (by decide), (h4 0 (by decide)).trans (by decide),
    (h4 1 (by decide)).trans (by decide)⟩

/-- Counterexample to claim C5 as stated: under the log transform a zero
price produces a `-inf` return, and `DataFrame.dropna()` drops only NaN
rows, so the constructed return panel contains a non-finite value. -/
theorem returns_nonfinite_counterexample :
    compute_returns (fun r => r - 1) "log" [[FVal.fin 1], [FVal.fin 0]] =
        [[FVal.ninf]] ∧
      isFiniteB FVal.ninf = false := by
  constructor
  · decide
  · rfl

/-- Claim C5 as amended: for every input price panel the constructed return
panel contains no missing (NaN) value — the first row and every row with a
NaN outcome are dropped — but values that become infinite (for example from
a zero price under the log transform) are retained, and the panel is not
mutated afterward. -/
theorem returns_no_missing (lg : ℚ → ℚ) (rt : String)
    (rows : List (List FVal)) :
    ∀ row ∈ compute_returns lg rt rows, ∀ v ∈ row, isNaNB v = false := by
  intro row hrow v hv
  cases rows with
  | nil => simp [compute_returns] at hrow
  | cons r0 rest =>
      rw [compute_returns] at hrow
      have hkept := List.of_mem_filter hrow
      rw [Bool.not_eq_eq_eq_not, Bool.not_true, List.any_eq_false] at hkept
      exact Bool.eq_false_iff.mpr (hkept v hv)

/-- Witness for C5 (amended) at a concrete two-row panel. -/
theorem returns_no_missing_witness : isNaNB (FVal.fin 1) = false :=
  returns_no_missing (fun r => r - 1) "log" [[FVal.fin 1], [FVal.fin 2]]
    [FVal.fin 1] (by decide) (FVal.fin 1) (by decide)

theorem stationarity_getD (adf kpss : List FVal → Except Unit (ℚ × ℚ))
    (alpha : ℚ) (cols : List (List FVal)) (i : ℕ) (h : i < cols.length) :
    (stationarity_tests adf kpss alpha cols).getD i defaultStatRow =
      stationarityRow (adf (dropnaS (cols.getD i [])))
        (kpss (dropnaS (cols.getD i []))) alpha := by
  have hm : i < (stationarity_tests adf kpss alpha cols).length := by
    rw [stationarity_tests, List.length_map]
    exact h
  rw [List.getD_eq_getElem _ _ hm, List.getD_eq_getElem _ _ h]
  simp [stationarity_tests]

theorem stylized_getD (lb arch : List FVal → Except Unit (ℚ × ℚ))
    (kurt : List FVal → FVal) (lg : ℚ → ℚ) (tq : ℚ)
    (cols : List (List FVal)) (i : ℕ) (h : i < cols.length) :
    (stylized_facts lb arch kurt lg tq cols).getD i defaultStylRow =
      stylizedRow (lb (dropnaS (cols.getD i [])))
        (arch (dropnaS (cols.getD i [])))
        (hill_tail_index lg (dropnaS (cols.getD i [])) tq)
        (kurt (dropnaS (cols.getD i []))) := by
  have hm : i < (stylized_facts lb arch kurt lg tq cols).length := by
    rw [stylized_facts, List.length_map]
    exact h
  rw [List.getD_eq_getElem _ _ hm, List.getD_eq_getElem _ _ h]
  simp [stylized_facts]

/-- Claim C6: in every stationarity-table row, a successful ADF run records
the verdict "Stationary" exactly when its p-value is below alpha and
"Non-stationary" otherwise, a successful KPSS run records "Stationary"
exactly when its p-value exceeds alpha, and a numerically failing test
records NaN statistic and p-value with verdict "Error". -/
theorem stationarity_verdicts (adf kpss : List FVal → Except Unit (ℚ × ℚ))
    (alpha : ℚ) (cols : List (List FVal)) (i : ℕ) (h : i < cols.length) :
    (∀ s p : ℚ, adf (dropnaS (cols.getD i [])) = .ok (s, p) →
        ((stationarity_tests adf kpss alpha cols).getD i
            defaultStatRow).adfVerdict =
          (if p < alpha then "Stationary" else "Non-stationary")) ∧
      (adf (dropnaS (cols.getD i [])) = .error () →
        ((stationarity_tests adf kpss alpha cols).getD i
            defaultStatRow).adfStat = FVal.nan ∧
          ((stationarity_tests adf kpss alpha cols).getD i
            defaultStatRow).adfPval = FVal.nan ∧
          ((stationarity_tests adf kpss alpha cols).getD i
            defaultStatRow).adfVerdict = "Error") ∧
      (∀ s p : ℚ, kpss (dropnaS (cols.getD i [])) = .ok (s, p) →
        ((stationarity_tests adf kpss alpha cols).getD i
            defaultStatRow).kpssVerdict =
          (if alpha < p then "Stationary" else "Non-stationary")) ∧
      (kpss (dropnaS (cols.getD i [])) = .error () →
        ((stationarity_tests adf kpss alpha cols).getD i
            defaultStatRow).kpssStat = FVal.nan ∧
          ((stationarity_tests adf kpss alpha cols).getD i
            defaultStatRow).kpssPval = FVal.nan ∧
          ((stationarity_tests adf kpss alpha cols).getD i
            defaultStatRow).kpssVerdict = "Error") := by
  have hrow := stationarity_getD adf kpss alpha cols i h
  refine ⟨?_, ?_, ?_, ?_⟩
  · intro s p hok
    rw [hrow, hok]
    rfl
  · intro herr
    rw [hrow, herr]
    exact ⟨rfl, rfl, rfl⟩
  · intro s p hok
    rw [hrow, hok]
    rfl
  · intro herr
    rw [hrow, herr]
    exact ⟨rfl, rfl, rfl⟩

/-- Witness for C6 with an ADF routine that succeeds with p-value 0 and a
KPSS routine that raises. -/
theorem stationarity_verdicts_witness :
    ((stationarity_tests (fun _ => .ok (1, 0)) (fun _ => .error ()) (1/20)
        [[FVal.fin 1]]).getD 0 defaultStatRow).adfVerdict = "Stationary" ∧
      ((stationarity_tests (fun _ => .ok (1, 0)) (fun _ => .error ()) (1/20)
        [[FVal.fin 1]]).getD 0 defaultStatRow).kpssVerdict = "Error" := by
  obtain ⟨hA, _hB, _hC, hD⟩ := stationarity_verdicts
    (fun _ => .ok (1, 0)) (fun _ => .error ()) (1/20) [[FVal.fin 1]] 0
    (by decide)
  exact ⟨(hA 1 0 rfl).trans (by norm_num), (hD rfl).2.2⟩

/-- Claim C7: every diagnostic table has exactly one row per series, each row
is a function of its own series alone (so a failure on one series cannot
change any other row), and within one row a failing test populates only its
own statistic/p-value/verdict fields, leaving the other tests' fields
unchanged; both table builders are total, so no failure aborts the run. -/
theorem diagnostics_locality (adf kpss lb arch : List FVal → Except Unit (ℚ × ℚ))
    (kurt : List FVal → FVal) (lg : ℚ → ℚ) (alpha tq : ℚ)
    (cols : List (List FVal)) :
    (stationarity_tests adf kpss alpha cols).length = cols.length ∧
      (stylized_facts lb arch kurt lg tq cols).length = cols.length ∧
      (∀ i, i < cols.length →
        (stationarity_tests adf kpss alpha cols).getD i defaultStatRow =
          stationarityRow (adf (dropnaS (cols.getD i [])))
            (kpss (dropnaS (cols.getD i []))) alpha) ∧
      (∀ i, i < cols.length →
        (stylized_facts lb arch kurt lg tq cols).getD i defaultStylRow =
          stylizedRow (lb (dropnaS (cols.getD i [])))
            (arch (dropnaS (cols.getD i [])))
            (hill_tail_index lg (dropnaS (cols.getD i [])) tq)
            (kurt (dropnaS (cols.getD i [])))) ∧
      (∀ (a k : Except Unit (ℚ × ℚ)) (al : ℚ),
        (stationarityRow (.error ()) k al).kpssStat =
            (stationarityRow a k al).kpssStat ∧
          (stationarityRow (.error ()) k al).kpssPval =
            (stationarityRow a k al).kpssPval ∧
          (stationarityRow (.error ()) k al).kpssVerdict =
            (stationarityRow a k al).kpssVerdict ∧
          (stationarityRow (.error ()) k al).adfStat = FVal.nan ∧
          (stationarityRow (.error ()) k al).adfPval = FVal.nan ∧
          (stationarityRow (.error ()) k al).adfVerdict = "Error") ∧
      (∀ (l2 a2 : Except Unit (ℚ × ℚ)) (h2 k2 : FVal),
        (stylizedRow (.error ()) a2 h2 k2).archStat =
            (stylizedRow l2 a2 h2 k2).archStat ∧
          (stylizedRow (.error ()) a2 h2 k2).archPval =
            (stylizedRow l2 a2 h2 k2).archPval ∧
          (stylizedRow (.error ()) a2 h2 k2).hillIdx = h2 ∧
          (stylizedRow (.error ()) a2 h2 k2).exKurt = k2 ∧
          (stylizedRow (.error ()) a2 h2 k2).lbStat = FVal.nan ∧
          (stylizedRow (.error ()) a2 h2 k2).lbPval = FVal.nan) := by
  refine ⟨?_, ?_, ?_, ?_, ?_, ?_⟩
  · rw [stationarity_tests, List.length_map]
  · rw [stylized_facts, List.length_map]
  · intro i h
    exact stationarity_getD adf kpss alpha cols i h
  · intro i h
    exact stylized_getD lb arch kurt lg tq cols i h
  · intro a k al
    exact ⟨rfl, rfl, rfl, rfl, rfl, rfl⟩
  · intro l2 a2 h2 k2
    exact ⟨rfl, rfl, rfl, rfl, rfl, rfl⟩

/-- Witness for C7: a two-series panel where the test routines raise on the
constant series and succeed on the other; the constant series' row records
"Error" while the other series' row is valid, and the table is complete. -/
theorem diagnostics_locality_witness :
    (stationarity_tests
        (fun s => if s.all (fun v => v == FVal.fin 5) then .error ()
          else .ok (1, 1))
        (fun s => if s.all (fun v => v == FVal.fin 5) then .error ()
          else .ok (1, 1)) (1/20)
        [[FVal.fin 5, FVal.fin 5], [FVal.fin 1, FVal.fin 2]]).length = 2 ∧
      ((stationarity_tests
        (fun s => if s.all (fun v => v == FVal.fin 5) then .error ()
          else .ok (1, 1))
        (fun s => if s.all (fun v => v == FVal.fin 5) then .error ()
          else .ok (1, 1)) (1/20)
        [[FVal.fin 5, FVal.fin 5], [FVal.fin 1, FVal.fin 2]]).getD 0
          defaultStatRow).adfVerdict = "Error" ∧
      ((stationarity_tests
        (fun s => if s.all (fun v => v == FVal.fin 5) then .error ()
          else .ok (1, 1))
        (fun s => if s.all (fun v => v == FVal.fin 5) then .error ()
          else .ok (1, 1)) (1/20)
        [[FVal.fin 5, FVal.fin 5], [FVal.fin 1, FVal.fin 2]]).getD 1
          defaultStatRow).adfVerdict = "Non-stationary" := by
  obtain ⟨h1, _h2, h3, _h4, _h5, _h6⟩ := diagnostics_locality
    (fun s => if s.all (fun v => v == FVal.fin 5) then .error ()
      else .ok (1, 1))
    (fun s => if s.all (fun v => v == FVal.fin 5) then .error ()
      else .ok (1, 1))
    (fun _ => .ok (1, 1)) (fun _ => .ok (1, 1)) (fun _ => FVal.fin 0)
    (fun r => r - 1) (1/20) (19/20)
    [[FVal.fin 5, FVal.fin 5], [FVal.fin 1, FVal.fin 2]]
  refine ⟨h1.trans (by decide), ?_, ?_⟩
  · rw [h3 0 (by decide)]
    decide
  · rw [h3 1 (by decide)]
    decide

/-- Counterexample to claim C8 as stated: on a datetime-indexed panel (an
explicit `date_column` that is present, so `df.resample` is legal) with
`dropna` unset, a price column whose only value is NaN becomes empty after
the post-resample `dropna()`, yet `load_data` returns the empty panel
successfully: the loading stage raises no terminal error and prints no
stage-identifying diagnostic (lines 150-153 have no emptiness check), so the
claimed terminal abort at that point does not occur. -/
theorem load_resample_empty_ok_counterexample :
    resolveDateIndex "ds" false ["ds", "px"] (fun _ => false) =
        .explicitCol "ds" ∧
      isDatetimeIdx (.explicitCol "ds") = true ∧
      load_data ⟨"ds", false, false, ["px"], [], some "W", "log"⟩
        [⟨"ds", false, [FVal.fin 1]⟩, ⟨"px", true, [FVal.nan]⟩]
        (fun _ => false) (fun _ p => p) = .ok [⟨"px", true, []⟩] ∧
      panelEmpty [⟨"px", true, []⟩] = true := by
  exact ⟨by decide, rfl, by decide, rfl⟩

/-- Claim C8 as amended: an empty resolved price-column set, and an empty
panel after the `dropna` cleaning step, are terminal errors of `load_data`,
and every `load_data` error makes the run exit with status 1 before any
tabular artifact is written; resampling with a non-datetime (ordinal) index
raises an uncaught `TypeError`, which is likewise terminal; but a panel that
becomes empty only after a successful resample is returned without error and
the run proceeds. -/
theorem load_terminal_errors (cfg : EDAConfig) (df : Panel)
    (parseOk : String → Bool) (resampleLast : String → Panel → Panel)
    (lg : ℚ → ℚ) (adf kpss lb arch : List FVal → Except Unit (ℚ × ℚ))
    (kurt : List FVal → FVal) (alpha tq : ℚ) :
    (resolvePriceCols cfg (applyDate cfg df parseOk) = [] →
        load_data cfg df parseOk resampleLast =
          .error "No price columns found!") ∧
      (∀ e, load_data cfg df parseOk resampleLast = .error e →
        runMain lg adf kpss lb arch kurt alpha tq cfg df parseOk
          resampleLast = (1, [])) ∧
      (∀ sel, resolvePriceCols cfg (applyDate cfg df parseOk) ≠ [] →
        selectPanel (applyDate cfg df parseOk)
          (resolvePriceCols cfg (applyDate cfg df parseOk)) = some sel →
        panelEmpty sel = false →
        cfg.dropna = true →
        panelEmpty (dropnaRows sel) = true →
        load_data cfg df parseOk resampleLast =
          .error "No data remaining after dropping NA values") ∧
      (∀ rule sel, resolvePriceCols cfg (applyDate cfg df parseOk) ≠ [] →
        selectPanel (applyDate cfg df parseOk)
          (resolvePriceCols cfg (applyDate cfg df parseOk)) = some sel →
        panelEmpty sel = false →
        cfg.dropna = false →
        cfg.resample = some rule →
        isDatetimeIdx (resolveDateIndex cfg.date_column cfg.parse_dates
          (df.map RawCol.name) parseOk) = false →
        load_data cfg df parseOk resampleLast =
          .error "TypeError: Only valid with DatetimeIndex") := by
  refine ⟨?_, ?_, ?_, ?_⟩
  · intro hempty
    simp only [load_data, hempty]
    rfl
  · intro e herr
    simp [runMain, herr]
  · intro sel hne hsel hnotempty hdropna hdropempty
    have hie : (resolvePriceCols cfg (applyDate cfg df parseOk)).isEmpty =
        false := by
      rw [List.isEmpty_eq_false]
      exact hne
    simp only [load_data, hie, Bool.false_eq_true, if_false, hsel, hnotempty,
      hdropna, if_true, hdropempty, Bool.and_self]
  · intro rule sel hne hsel hnotempty hdropna hres hidx
    have hie : (resolvePriceCols cfg (applyDate cfg df parseOk)).isEmpty =
        false := by
      rw [List.isEmpty_eq_false]
      exact hne
    simp only [load_data, hie, Bool.false_eq_true, if_false, hsel, hnotempty,
      hdropna, Bool.false_and, hres, hidx]

/-- Witness for C8 (amended): a table whose only numeric column is named
"id" (excluded by pattern) resolves no price column, so `load_data` errors
and the run exits 1 with nothing written; and resampling with the ordinal
index kept (no date column resolved) raises the `TypeError`, which is
likewise terminal with exit status 1 and nothing written. -/
theorem load_terminal_errors_witness :
    load_data ⟨"", false, true, [], [], none, "log"⟩
        [⟨"id", true, [FVal.fin 1]⟩] (fun _ => false) (fun _ p => p) =
      .error "No price columns found!" ∧
      runMain (fun r => r - 1) (fun _ => .ok (1, 1)) (fun _ => .ok (1, 1))
        (fun _ => .ok (1, 1)) (fun _ => .ok (1, 1)) (fun _ => FVal.fin 0)
        (1/20) (19/20) ⟨"", false, true, [], [], none, "log"⟩
        [⟨"id", true, [FVal.fin 1]⟩] (fun _ => false) (fun _ p => p) =
      (1, []) ∧
      load_data ⟨"", false, false, ["px"], [], some "W", "log"⟩
        [⟨"px", true, [FVal.nan]⟩] (fun _ => false) (fun _ p => p) =
      .error "TypeError: Only valid with DatetimeIndex" ∧
      runMain (fun r => r - 1) (fun _ => .ok (1, 1)) (fun _ => .ok (1, 1))
        (fun _ => .ok (1, 1)) (fun _ => .ok (1, 1)) (fun _ => FVal.fin 0)
        (1/20) (19/20) ⟨"", false, false, ["px"], [], some "W", "log"⟩
        [⟨"px", true, [FVal.nan]⟩] (fun _ => false) (fun _ p => p) =
      (1, []) := by
  obtain ⟨hA, hB, _hC, _hD⟩ := load_terminal_errors
    ⟨"", false, true, [], [], none, "log"⟩ [⟨"id", true, [FVal.fin 1]⟩]
    (fun _ => false) (fun _ p => p) (fun r => r - 1)
    (fun _ => .ok (1, 1)) (fun _ => .ok (1, 1)) (fun _ => .ok (1, 1))
    (fun _ => .ok (1, 1)) (fun _ => FVal.fin 0) (1/20) (19/20)
  obtain ⟨_hA2, hB2, _hC2, hD2⟩ := load_terminal_errors
    ⟨"", false, false, ["px"], [], some "W", "log"⟩ [⟨"px", true, [FVal.nan]⟩]
    (fun _ => false) (fun _ p => p) (fun r => r - 1)
    (fun _ => .ok (1, 1)) (fun _ => .ok (1, 1)) (fun _ => .ok (1, 1))
    (fun _ => .ok (1, 1)) (fun _ => FVal.fin 0) (1/20) (19/20)
  have h1 := hA (by decide)
  have h2 := hD2 "W" [⟨"px", true, [FVal.nan]⟩] (by decide) (by decide)
    (by decide) rfl rfl (by decide)
  exact ⟨h1, hB _ h1, h2, hB2 _ h2⟩

/-- Counterexample to claim C9 as stated: with `date_column` unset and
`parse_dates` false, a column named "date" matches the date/time-like
pattern, yet the ordinal index is kept — in the code the pattern search runs
only under the `parse_dates` branch, while the claim places it before that
check. -/
theorem date_pattern_counterexample :
    isDateLike "date" = true ∧
      resolveDateIndex "" false ["date", "px"] (fun _ => true) =
        .ordinalKept false :=
  ⟨by decide, by decide⟩

/-- Claim C9 as amended: the precedence is: the explicit `date_column` when
it is non-empty and present among the columns; otherwise, only when
`parse_dates` is set: the first column whose name matches the date/time-like
pattern, else an attempted parse of the first column, keeping the ordinal
index with a warning if that fails; with `parse_dates` unset the ordinal
index is kept silently even when a date-like column exists. -/
theorem date_resolution_precedence (dc : String) (pd : Bool)
    (names : List String) (parseOk : String → Bool) :
    (dc ≠ "" → dc ∈ names →
        resolveDateIndex dc pd names parseOk = .explicitCol dc) ∧
      (¬ (dc ≠ "" ∧ dc ∈ names) →
        (∀ n rest, pd = true → names.filter isDateLike = n :: rest →
          resolveDateIndex dc pd names parseOk = .patternCol n) ∧
        (∀ n rest, pd = true → names.filter isDateLike = [] →
          names = n :: rest →
          resolveDateIndex dc pd names parseOk =
            (if parseOk n then .firstParsed n else .ordinalKept true)) ∧
        (pd = false →
          resolveDateIndex dc pd names parseOk = .ordinalKept false)) := by
  constructor
  · intro h1 h2
    rw [resolveDateIndex.eq_def, if_pos (And.intro h1 h2)]
  · intro hno
    refine ⟨?_, ?_, ?_⟩
    · intro n rest hpd hfil
      subst hpd
      rw [resolveDateIndex.eq_def, if_neg hno, if_pos rfl, hfil]
    · intro n rest hpd hfil hnames
      subst hpd
      subst hnames
      rw [resolveDateIndex.eq_def, if_neg hno, if_pos rfl, hfil]
    · intro hpd
      subst hpd
      rw [resolveDateIndex.eq_def, if_neg hno]
      rfl

/-- Witness for C9 (amended) exercising all four precedence outcomes. -/
theorem date_resolution_precedence_witness :
    resolveDateIndex "ds" false ["ds", "px"] (fun _ => false) =
        .explicitCol "ds" ∧
      resolveDateIndex "" true ["mytime", "px"] (fun _ => false) =
        .patternCol "mytime" ∧
      resolveDateIndex "" true ["a", "b"] (fun _ => true) =
        .firstParsed "a" ∧
      resolveDateIndex "" false ["mytime", "px"] (fun _ => false) =
        .ordinalKept false := by
  obtain ⟨h1a, _⟩ :=
    date_resolution_precedence "ds" false ["ds", "px"] (fun _ => false)
  obtain ⟨_, h2⟩ :=
    date_resolution_precedence "" true ["mytime", "px"] (fun _ => false)
  obtain ⟨_, h3⟩ :=
    date_resolution_precedence "" true ["a", "b"] (fun _ => true)
  obtain ⟨_, h4⟩ :=
    date_resolution_precedence "" false ["mytime", "px"] (fun _ => false)
  refine ⟨h1a (by decide) (by decide), ?_, ?_, ?_⟩
  · exact (h2 (by decide)).1 "mytime" [] rfl (by decide)
  · exact ((h3 (by decide)).2.1 "a" ["b"] rfl (by decide) rfl).trans (by decide)
  · exact (h4 (by decide)).2.2 rfl
